import Mathlib

/-!
Verification of the agent-loop core of the `agentic_patterns` planning-pattern
repository: the tag extractor, the demo tools defined in
`src/notebooks/planning_pattern.ipynb`, and the ReAct agent loop.

The notebook source defines the three tools (`sum_two_elements`,
`multiply_two_elements`, `compute_log`), the registry `available_tools`, and the
walkthrough appends to `chat_history` (assistant replies and
`<observation>{result}</observation>` user messages).  The library modules the
notebook imports (`agentic_patterns.utils.extraction.extract_tag_content`,
`agentic_patterns.planning_pattern.react_agent.ReactAgent`) are part of the
repository but their sources are not available here, so they are modelled from
the specification (sections 4.1 and 4.4) as noted on each definition.
-/

namespace AgenticPatterns

/-- Boolean test that `pat` is an initial segment of `cs`. -/
def startsWith : List Char → List Char → Bool
  | [], _ => true
  | _ :: _, [] => false
  | p :: ps, c :: cs => p == c && startsWith ps cs

/-- Modelled from the spec: the substring search inside the Tag Extractor
(section 4.1).  Splits `cs` at the first occurrence of `pat`, returning the
text before the occurrence and the text after it; `none` when `pat` does not
occur. -/
def splitOnFirst (pat : List Char) : List Char → Option (List Char × List Char)
  | [] => none
  | c :: cs =>
    if startsWith pat (c :: cs) then some ([], (c :: cs).drop pat.length)
    else
      match splitOnFirst pat cs with
      | none => none
      | some (pre, post) => some (c :: pre, post)

/-- The opening tag `<tag>` as a character list. -/
def openTagOf (tag : String) : List Char := '<' :: (tag.data ++ ['>'])

/-- The closing tag `</tag>` as a character list. -/
def closeTagOf (tag : String) : List Char := '<' :: '/' :: (tag.data ++ ['>'])

/-- Modelled from the spec: the scanning loop of the Tag Extractor
(section 4.1) — locate all non-overlapping occurrences of the named tag pair
and collect their inner contents in order of appearance; an opening tag with
no matching closing tag matches nothing.  `fuel` bounds the recursion; the
wrapper `extractMatches` supplies sufficient fuel. -/
def extractLoopF (tag : String) : Nat → List Char → List (List Char)
  | 0, _ => []
  | fuel + 1, cs =>
    match splitOnFirst (openTagOf tag) cs with
    | none => []
    | some (_, rest) =>
      match splitOnFirst (closeTagOf tag) rest with
      | none => []
      | some (inner, rest2) => inner :: extractLoopF tag fuel rest2

/-- All inner contents of the tag pair `tag` in `cs`, in order. -/
def extractMatches (tag : String) (cs : List Char) : List (List Char) :=
  extractLoopF tag cs.length cs

/-- Modelled from the spec: the ExtractionResult record of the data model
(section 3) — the tag searched for and the ordered sequence of matches; the
field is named `content` after the accessor the notebook uses
(`tool_call.content[0]`). -/
structure ExtractionResult where
  tag : String
  content : List String
  deriving DecidableEq, Repr

/-- Modelled from the spec: `agentic_patterns.utils.extraction.extract_tag_content`
(imported by the notebook; source not in `src/`), per section 4.1: pure
function returning the inner contents of all non-overlapping `<tag>...</tag>`
occurrences, empty when the tag pair does not appear. -/
def extract_tag_content (text : String) (tag : String) : ExtractionResult :=
  ⟨tag, (extractMatches tag text.data).map String.mk⟩

/-- From the notebook source: `sum_two_elements` returns `a + b`. -/
def sum_two_elements (a b : ℤ) : ℤ := a + b

/-- From the notebook source: `multiply_two_elements` returns `a * b`. -/
def multiply_two_elements (a b : ℤ) : ℤ := a * b

/-- From the notebook source: `compute_log` returns the error string for
`x ≤ 0` and otherwise `math.log(x)`, modelled as the real natural logarithm. -/
noncomputable def compute_log (x : ℤ) : ℝ ⊕ String :=
  if x ≤ 0 then Sum.inr "Logarithm is undefined for values less than or equal to 0."
  else Sum.inl (Real.log (x : ℝ))

/-- Message roles, from the notebook's chat-history dictionaries and the
spec's Message data model (section 3). -/
inductive Role where
  | system
  | user
  | assistant
  deriving DecidableEq, Repr

/-- A conversation message: role plus content. -/
structure Message where
  role : Role
  content : String
  deriving DecidableEq, Repr

/-- The parsed tool-call wire object `{name, arguments, id}` (section 6);
argument values are the integers used by the notebook's tools. -/
structure ToolCallData where
  name : String
  arguments : List (String × ℤ)
  id : ℤ
  deriving DecidableEq, Repr

/-- A registered tool as the loop sees it: a name and a runner producing the
serialized return value (the text interpolated into the observation). -/
structure Tool where
  name : String
  run : List (String × ℤ) → String

/-- Modelled from the spec: the error taxonomy entry `UnknownToolError`
(section 7). -/
inductive ToolError where
  | unknownTool (name : String)
  deriving DecidableEq, Repr

/-- Modelled from the spec: registry resolution (section 4.3) —
`resolve(name)` fails with `UnknownToolError` if absent.  The registry is the
notebook's `available_tools` name-keyed mapping. -/
def resolveTool (tools : List Tool) (n : String) : Except ToolError Tool :=
  match tools.find? (fun t => t.name == n) with
  | some t => Except.ok t
  | none => Except.error (ToolError.unknownTool n)

/-- Dispatch of a parsed tool call, from the notebook's
`available_tools[tool_call["name"]].run(**tool_call["arguments"])` together
with the spec's step 5 (section 4.4): an `UnknownToolError` becomes an
observation text stating the tool is unknown.  The `id` field is not read. -/
def dispatchToolCall (tools : List Tool) (call : ToolCallData) : String :=
  match resolveTool tools call.name with
  | Except.error (ToolError.unknownTool n) => "Tool " ++ n ++ " is unknown"
  | Except.ok t => t.run call.arguments

/-- The assistant message appended for a model reply, from the notebook's
`chat_history.append({"role": "assistant", "content": output})`. -/
def assistantMsg (reply : String) : Message := ⟨Role.assistant, reply⟩

/-- The observation message appended after a tool result, from the notebook's
`chat_history.append({"role": "user", "content": f"<observation>{result}</observation>"})`. -/
def observationMsg (result : String) : Message :=
  ⟨Role.user, "<observation>" ++ result ++ "</observation>"⟩

/-- Outcome of one loop iteration on one model reply. -/
inductive StepResult where
  | finished (answer : String)
  | stall (rawReply : String)
  | next (newHistory : List Message)
  deriving DecidableEq, Repr

/-- Loop configuration: the tool registry and the wire-format parser.
Modelled from the spec: the JSON parsing of the first `tool_call` match
(`json.loads` in the notebook) is abstracted as a function returning the
structured `{name, arguments, id}` object or failing. -/
structure LoopConfig where
  tools : List Tool
  parse : String → Option ToolCallData

/-- Modelled from the spec: one iteration of the ReAct agent loop
(section 4.4, steps 1-7), as implemented by
`agentic_patterns.planning_pattern.react_agent.ReactAgent` (imported by the
notebook; source not in `src/`).  A `response` tag ends the run; a missing or
unparseable `tool_call` stalls, aborting with the raw reply (the spec leaves
the stall policy open between one corrective retry and an abort); otherwise
the tool call is dispatched and the loop continues with the assistant reply
and the observation appended. -/
def reactStep (cfg : LoopConfig) (hist : List Message) (reply : String) : StepResult :=
  match (extract_tag_content reply "response").content with
  | ans :: _ => StepResult.finished ans
  | [] =>
    match (extract_tag_content reply "tool_call").content with
    | [] => StepResult.stall reply
    | tc :: _ =>
      match cfg.parse tc with
      | none => StepResult.stall reply
      | some call =>
        StepResult.next
          ((hist ++ [assistantMsg reply]) ++
            [observationMsg (dispatchToolCall cfg.tools call)])

/-- Terminal outcome of a run (section 7): success, stalled abort reporting
the raw reply, or `IterationBudgetExceeded`. -/
inductive RunResult where
  | done (answer : String)
  | stalled (rawReply : String)
  | budgetExceeded
  deriving DecidableEq, Repr

/-- Modelled from the spec: the ReAct agent driver loop (section 4.4) with a
maximum iteration count; exhausting the budget is fatal and surfaced to the
caller. -/
def runLoop (cfg : LoopConfig) (client : List Message → String) :
    Nat → List Message → RunResult
  | 0, _ => RunResult.budgetExceeded
  | fuel + 1, hist =>
    match reactStep cfg hist (client hist) with
    | StepResult.finished a => RunResult.done a
    | StepResult.stall raw => RunResult.stalled raw
    | StepResult.next h2 => runLoop cfg client fuel h2

/-- Modelled from the spec: the default maximum iteration count
("default reasonable bound e.g. 10", section 4.4 step 8). -/
def defaultMaxRounds : Nat := 10

/-- From the notebook walkthrough: the observation appended after the first
tool call (`sum_two_elements(a=1234, b=5678)`), serialized by Python string
formatting. -/
def walkthroughObservation1 : Message :=
  observationMsg (toString (sum_two_elements 1234 5678))

/-- From the notebook walkthrough: the observation appended after the second
tool call (`multiply_two_elements(a=6912, b=5)`). -/
def walkthroughObservation2 : Message :=
  observationMsg (toString (multiply_two_elements 6912 5))

/-- A concrete wire-format parser for demonstration runs: recognises two
fixed payloads and rejects everything else. -/
def demoParse (s : String) : Option ToolCallData :=
  if s = "call0" then some ⟨"mystery_tool", [], 0⟩
  else if s = "call1" then some ⟨"echo", [("a", 1)], 0⟩
  else none

/-- A concrete registered tool whose runner returns a fixed serialized
value. -/
def echoTool : Tool := ⟨"echo", fun _ => "ok"⟩

/-- A demonstration configuration with an empty registry. -/
def demoConfig : LoopConfig := ⟨[], demoParse⟩

/-- A demonstration configuration whose registry holds `echoTool`. -/
def demoConfigEcho : LoopConfig := ⟨[echoTool], demoParse⟩

/-- A model reply whose tool call names a tool absent from the registry. -/
def demoReplyUnknown : String := "<tool_call>call0</tool_call>"

/-- A model reply whose tool call resolves to `echoTool`. -/
def demoReplyEcho : String := "<tool_call>call1</tool_call>"

/-- A model client that never emits a `response` or `tool_call` tag. -/
def demoStubbornClient : List Message → String :=
  fun _ => "I refuse to answer with tags"

theorem startsWith_iff (pat cs : List Char) :
    startsWith pat cs = true ↔ ∃ t, pat ++ t = cs := by
  induction pat generalizing cs with
  | nil => simp [startsWith]
  | cons p ps ih =>
    cases cs with
    | nil => simp [startsWith]
    | cons c cs' =>
      simp only [startsWith, Bool.and_eq_true, beq_iff_eq, ih]
      constructor
      · rintro ⟨rfl, t, rfl⟩
        exact ⟨t, rfl⟩
      · rintro ⟨t, h⟩
        injection h with h1 h2
        exact ⟨h1, t, h2⟩

theorem drop_length_append (l t : List Char) : (l ++ t).drop l.length = t := by
  induction l with
  | nil => simp
  | cons a l ih => simp [ih]

theorem splitOnFirst_sound (pat : List Char) :
    ∀ (cs pre post : List Char), splitOnFirst pat cs = some (pre, post) →
      cs = pre ++ pat ++ post := by
  intro cs
  induction cs with
  | nil => intro pre post h; simp [splitOnFirst] at h
  | cons c cs ih =>
    intro pre post h
    simp only [splitOnFirst] at h
    by_cases hs : startsWith pat (c :: cs) = true
    · rw [if_pos hs] at h
      simp only [Option.some.injEq, Prod.mk.injEq] at h
      obtain ⟨rfl, rfl⟩ := h
      obtain ⟨t, ht⟩ := (startsWith_iff pat (c :: cs)).mp hs
      rw [← ht, drop_length_append]
      simp
    · rw [if_neg hs] at h
      cases hrec : splitOnFirst pat cs with
      | none => rw [hrec] at h; simp at h
      | some pp =>
        obtain ⟨pre', post'⟩ := pp
        rw [hrec] at h
        simp only [Option.some.injEq, Prod.mk.injEq] at h
        obtain ⟨rfl, rfl⟩ := h
        rw [ih pre' post' hrec]
        rfl

theorem splitOnFirst_post_length {pat cs pre post : List Char} (hp : pat ≠ [])
    (h : splitOnFirst pat cs = some (pre, post)) : post.length < cs.length := by
  have hcs := splitOnFirst_sound pat cs pre post h
  have hlen : 0 < pat.length := List.length_pos.mpr hp
  subst hcs
  simp only [List.length_append]
  omega

theorem splitOnFirst_self_append {pat : List Char} (hp : pat ≠ []) (t : List Char) :
    splitOnFirst pat (pat ++ t) = some ([], t) := by
  obtain ⟨p, ps, rfl⟩ := List.exists_cons_of_ne_nil hp
  show splitOnFirst (p :: ps) (p :: (ps ++ t)) = some ([], t)
  simp only [splitOnFirst]
  rw [if_pos ((startsWith_iff (p :: ps) (p :: (ps ++ t))).mpr ⟨t, rfl⟩)]
  rw [show p :: (ps ++ t) = (p :: ps) ++ t from rfl, drop_length_append]

theorem splitOnFirst_isSome_of_decomp {pat : List Char} (hp : pat ≠ []) :
    ∀ (a t cs : List Char), cs = a ++ pat ++ t → (splitOnFirst pat cs).isSome = true := by
  intro a
  induction a with
  | nil =>
    intro t cs h
    subst h
    simp only [List.nil_append]
    rw [splitOnFirst_self_append hp]
    rfl
  | cons x a ih =>
    intro t cs h
    subst h
    rw [show (x :: a) ++ pat ++ t = x :: (a ++ pat ++ t) from by simp]
    simp only [splitOnFirst]
    by_cases hs : startsWith pat (x :: (a ++ pat ++ t)) = true
    · rw [if_pos hs]; rfl
    · rw [if_neg hs]
      have hrec := ih t (a ++ pat ++ t) rfl
      cases hmatch : splitOnFirst pat (a ++ pat ++ t) with
      | none => rw [hmatch] at hrec; simp at hrec
      | some pp =>
        obtain ⟨pre, post⟩ := pp
        rfl

theorem not_decomp_of_splitOnFirst_none {pat : List Char} (hp : pat ≠ [])
    (cs : List Char) (h : splitOnFirst pat cs = none) (a t : List Char) :
    cs ≠ a ++ pat ++ t := by
  intro heq
  have hsome := splitOnFirst_isSome_of_decomp hp a t cs heq
  rw [h] at hsome
  simp at hsome

theorem startsWith_append_of_le :
    ∀ (pat l t : List Char), pat.length ≤ l.length →
      startsWith pat (l ++ t) = startsWith pat l := by
  intro pat
  induction pat with
  | nil => intro l t _; rfl
  | cons p ps ih =>
    intro l t h
    cases l with
    | nil => simp at h
    | cons a l' =>
      show startsWith (p :: ps) (a :: (l' ++ t)) = startsWith (p :: ps) (a :: l')
      simp only [startsWith]
      have hle : ps.length ≤ l'.length := by simp at h; omega
      rw [ih l' t hle]

theorem openTagOf_ne_nil (tag : String) : openTagOf tag ≠ [] := by
  simp [openTagOf]

theorem closeTagOf_ne_nil (tag : String) : closeTagOf tag ≠ [] := by
  simp [closeTagOf]

theorem extractLoopF_congr (tag : String) :
    ∀ (f1 : Nat) (cs : List Char) (f2 : Nat), cs.length ≤ f1 → cs.length ≤ f2 →
      extractLoopF tag f1 cs = extractLoopF tag f2 cs := by
  intro f1
  induction f1 with
  | zero =>
    intro cs f2 h1 _
    have hcs : cs = [] := List.length_eq_zero.mp (Nat.le_zero.mp h1)
    subst hcs
    cases f2 with
    | zero => rfl
    | succ f2 => simp [extractLoopF, splitOnFirst]
  | succ f1 ih =>
    intro cs f2 h1 h2
    cases f2 with
    | zero =>
      have hcs : cs = [] := List.length_eq_zero.mp (Nat.le_zero.mp h2)
      subst hcs
      simp [extractLoopF, splitOnFirst]
    | succ f2 =>
      simp only [extractLoopF]
      cases h3 : splitOnFirst (openTagOf tag) cs with
      | none => rfl
      | some pp =>
        obtain ⟨pre, rest⟩ := pp
        show (match splitOnFirst (closeTagOf tag) rest with
          | none => []
          | some (inner, rest2) => inner :: extractLoopF tag f1 rest2) =
          (match splitOnFirst (closeTagOf tag) rest with
          | none => []
          | some (inner, rest2) => inner :: extractLoopF tag f2 rest2)
        cases h4 : splitOnFirst (closeTagOf tag) rest with
        | none => rfl
        | some pp2 =>
          obtain ⟨inner, rest2⟩ := pp2
          show inner :: extractLoopF tag f1 rest2 = inner :: extractLoopF tag f2 rest2
          have hr : rest.length < cs.length :=
            splitOnFirst_post_length (openTagOf_ne_nil tag) h3
          have hr2 : rest2.length < rest.length :=
            splitOnFirst_post_length (closeTagOf_ne_nil tag) h4
          exact congrArg (inner :: ·) (ih rest2 f2 (by omega) (by omega))

theorem extractMatches_unfold (tag : String) (cs : List Char) :
    extractMatches tag cs =
      match splitOnFirst (openTagOf tag) cs with
      | none => []
      | some (_, rest) =>
        match splitOnFirst (closeTagOf tag) rest with
        | none => []
        | some (inner, rest2) => inner :: extractMatches tag rest2 := by
  cases cs with
  | nil => simp [extractMatches, extractLoopF, splitOnFirst]
  | cons c cs' =>
    show extractLoopF tag (cs'.length + 1) (c :: cs') = _
    simp only [extractLoopF]
    cases h3 : splitOnFirst (openTagOf tag) (c :: cs') with
    | none => rfl
    | some pp =>
      obtain ⟨pre, rest⟩ := pp
      show (match splitOnFirst (closeTagOf tag) rest with
        | none => []
        | some (inner, rest2) => inner :: extractLoopF tag cs'.length rest2) =
        (match splitOnFirst (closeTagOf tag) rest with
        | none => []
        | some (inner, rest2) => inner :: extractMatches tag rest2)
      cases h4 : splitOnFirst (closeTagOf tag) rest with
      | none => rfl
      | some pp2 =>
        obtain ⟨inner, rest2⟩ := pp2
        show inner :: extractLoopF tag cs'.length rest2 = inner :: extractMatches tag rest2
        have hr : rest.length < (c :: cs').length :=
          splitOnFirst_post_length (openTagOf_ne_nil tag) h3
        have hr2 : rest2.length < rest.length :=
          splitOnFirst_post_length (closeTagOf_ne_nil tag) h4
        have hlen : rest2.length ≤ cs'.length := by
          simp only [List.length_cons] at hr
          omega
        exact congrArg (inner :: ·)
          (extractLoopF_congr tag cs'.length rest2 rest2.length hlen (Nat.le_refl _))

theorem extractMatches_eq_nil_of_no_pair (tag : String) (cs : List Char)
    (h : ∀ a b c, cs ≠ a ++ openTagOf tag ++ b ++ closeTagOf tag ++ c) :
    extractMatches tag cs = [] := by
  rw [extractMatches_unfold]
  cases h3 : splitOnFirst (openTagOf tag) cs with
  | none => rfl
  | some pp =>
    obtain ⟨pre, rest⟩ := pp
    show (match splitOnFirst (closeTagOf tag) rest with
      | none => []
      | some (inner, rest2) => inner :: extractMatches tag rest2) = []
    cases h4 : splitOnFirst (closeTagOf tag) rest with
    | none => rfl
    | some pp2 =>
      obtain ⟨inner, rest2⟩ := pp2
      exfalso
      have hcs := splitOnFirst_sound _ _ _ _ h3
      have hrest := splitOnFirst_sound _ _ _ _ h4
      exact h pre inner rest2 (by rw [hcs, hrest]; simp [List.append_assoc])

theorem splitOnFirst_append_first {pat : List Char} (hp : pat ≠ []) :
    ∀ (X rest : List Char), splitOnFirst pat (X ++ pat.dropLast) = none →
      splitOnFirst pat (X ++ pat ++ rest) = some (X, rest) := by
  intro X
  induction X with
  | nil =>
    intro rest _
    show splitOnFirst pat (([] ++ pat) ++ rest) = some ([], rest)
    rw [List.nil_append]
    exact splitOnFirst_self_append hp rest
  | cons x X ih =>
    intro rest hnone
    rw [show (x :: X) ++ pat ++ rest = x :: (X ++ pat ++ rest) from by simp]
    rw [show (x :: X) ++ pat.dropLast = x :: (X ++ pat.dropLast) from by simp] at hnone
    simp only [splitOnFirst] at hnone ⊢
    by_cases hs : startsWith pat (x :: (X ++ pat.dropLast)) = true
    · rw [if_pos hs] at hnone
      exact absurd hnone (by simp)
    · have hsw : startsWith pat (x :: (X ++ pat ++ rest)) =
          startsWith pat (x :: (X ++ pat.dropLast)) := by
        have hpat : pat.dropLast ++ [pat.getLast hp] = pat :=
          List.dropLast_append_getLast hp
        have h1 : x :: (X ++ pat ++ rest) =
            (x :: (X ++ pat.dropLast)) ++ ([pat.getLast hp] ++ rest) := by
          conv_lhs => rw [← hpat]
          simp [List.append_assoc]
        have hlen : pat.length ≤ (x :: (X ++ pat.dropLast)).length := by
          have hpos : 0 < pat.length := List.length_pos.mpr hp
          simp only [List.length_cons, List.length_append, List.length_dropLast]
          omega
        rw [h1, startsWith_append_of_le pat _ _ hlen]
      rw [hsw, if_neg hs]
      rw [if_neg hs] at hnone
      have hrecnone : splitOnFirst pat (X ++ pat.dropLast) = none := by
        cases hm : splitOnFirst pat (X ++ pat.dropLast) with
        | none => rfl
        | some pp =>
          obtain ⟨pre, post⟩ := pp
          rw [hm] at hnone
          simp at hnone
      rw [ih rest hrecnone]

theorem extractMatches_append_tag (tag : String) (X rest : List Char)
    (hwf : splitOnFirst (closeTagOf tag) (X ++ (closeTagOf tag).dropLast) = none) :
    extractMatches tag (openTagOf tag ++ X ++ closeTagOf tag ++ rest) =
      X :: extractMatches tag rest := by
  rw [extractMatches_unfold]
  have h1 : splitOnFirst (openTagOf tag) (openTagOf tag ++ X ++ closeTagOf tag ++ rest) =
      some ([], X ++ closeTagOf tag ++ rest) := by
    rw [show openTagOf tag ++ X ++ closeTagOf tag ++ rest =
        openTagOf tag ++ (X ++ closeTagOf tag ++ rest) from by simp [List.append_assoc]]
    exact splitOnFirst_self_append (openTagOf_ne_nil tag) _
  rw [h1]
  show (match splitOnFirst (closeTagOf tag) (X ++ closeTagOf tag ++ rest) with
    | none => []
    | some (inner, rest2) => inner :: extractMatches tag rest2) =
      X :: extractMatches tag rest
  rw [splitOnFirst_append_first (closeTagOf_ne_nil tag) X rest hwf]

/-- C1: for every parsed tool call whose name is not in the registry, the
loop resolves the name, fails with `UnknownToolError`, converts the failure
into an observation stating the tool is unknown, and issues a further model
request instead of terminating or crashing. -/
theorem unknown_tool_is_recoverable (cfg : LoopConfig) (client : List Message → String)
    (hist : List Message) (reply : String) (tc : String) (rest : List String)
    (call : ToolCallData)
    (hresp : (extract_tag_content reply "response").content = [])
    (htc : (extract_tag_content reply "tool_call").content = tc :: rest)
    (hparse : cfg.parse tc = some call)
    (hfind : cfg.tools.find? (fun t => t.name == call.name) = none)
    (hclient : client hist = reply) :
    resolveTool cfg.tools call.name = Except.error (ToolError.unknownTool call.name) ∧
    reactStep cfg hist reply =
      StepResult.next ((hist ++ [assistantMsg reply]) ++
        [observationMsg ("Tool " ++ call.name ++ " is unknown")]) ∧
    ∀ fuel, runLoop cfg client (fuel + 1) hist =
      runLoop cfg client fuel ((hist ++ [assistantMsg reply]) ++
        [observationMsg ("Tool " ++ call.name ++ " is unknown")]) := by
  have hres : resolveTool cfg.tools call.name =
      Except.error (ToolError.unknownTool call.name) := by
    simp only [resolveTool, hfind]
  have hstep : reactStep cfg hist reply =
      StepResult.next ((hist ++ [assistantMsg reply]) ++
        [observationMsg ("Tool " ++ call.name ++ " is unknown")]) := by
    simp only [reactStep, hresp, htc, hparse, dispatchToolCall, hres]
  refine ⟨hres, hstep, fun fuel => ?_⟩
  simp only [runLoop, hclient, hstep]

/-- C1 witness: a reply calling the unregistered tool `mystery_tool` against
an empty registry produces the unknown-tool observation and the loop
continues. -/
theorem unknown_tool_is_recoverable_witness :
    resolveTool demoConfig.tools "mystery_tool" =
      Except.error (ToolError.unknownTool "mystery_tool") ∧
    reactStep demoConfig [] demoReplyUnknown =
      StepResult.next (([] ++ [assistantMsg demoReplyUnknown]) ++
        [observationMsg ("Tool " ++ "mystery_tool" ++ " is unknown")]) ∧
    ∀ fuel, runLoop demoConfig (fun _ => demoReplyUnknown) (fuel + 1) [] =
      runLoop demoConfig (fun _ => demoReplyUnknown) fuel
        (([] ++ [assistantMsg demoReplyUnknown]) ++
          [observationMsg ("Tool " ++ "mystery_tool" ++ " is unknown")]) :=
  unknown_tool_is_recoverable demoConfig (fun _ => demoReplyUnknown) [] demoReplyUnknown
    "call0" [] ⟨"mystery_tool", [], 0⟩ (by decide) (by decide) (by decide) rfl rfl

/-- C2: when a reply has no `response` tag and either no `tool_call` tag or a
first `tool_call` match that fails to parse, the loop takes the STALLED exit,
aborting with the raw reply, and never faults. -/
theorem stalled_on_missing_or_unparseable (cfg : LoopConfig) (hist : List Message)
    (reply : String)
    (hresp : (extract_tag_content reply "response").content = [])
    (hstall : (extract_tag_content reply "tool_call").content = [] ∨
      ∃ tc rest, (extract_tag_content reply "tool_call").content = tc :: rest ∧
        cfg.parse tc = none) :
    reactStep cfg hist reply = StepResult.stall reply := by
  rcases hstall with h | ⟨tc, rest, htc, hp⟩
  · simp only [reactStep, hresp, h]
  · simp only [reactStep, hresp, htc, hp]

/-- C2 witness: a reply whose `tool_call` content is rejected by the parser
stalls, reporting the raw reply. -/
theorem stalled_on_missing_or_unparseable_witness :
    reactStep demoConfig [] "<tool_call>bad</tool_call>" =
      StepResult.stall "<tool_call>bad</tool_call>" :=
  stalled_on_missing_or_unparseable demoConfig [] "<tool_call>bad</tool_call>"
    (by decide) (Or.inr ⟨"bad", [], by decide, by decide⟩)

/-- C3: for every integer `x ≤ 0`, `compute_log` returns the literal
undefined-logarithm string as a normal value of its string branch, never a
raised error. -/
theorem compute_log_nonpositive (x : ℤ) (h : x ≤ 0) :
    compute_log x =
      Sum.inr "Logarithm is undefined for values less than or equal to 0." := by
  simp [compute_log, h]

/-- C3 witness: `compute_log 0` is the literal string. -/
theorem compute_log_nonpositive_witness :
    compute_log 0 =
      Sum.inr "Logarithm is undefined for values less than or equal to 0." :=
  compute_log_nonpositive 0 (by norm_num)

/-- C4: the arithmetic tools equal their reference functions, and on Scenario
A's inputs the sequence yields 6912, 34560, and the natural logarithm of
34560. -/
theorem tools_match_reference :
    (∀ a b : ℤ, sum_two_elements a b = a + b) ∧
    (∀ a b : ℤ, multiply_two_elements a b = a * b) ∧
    (∀ x : ℤ, 0 < x → compute_log x = Sum.inl (Real.log (x : ℝ))) ∧
    sum_two_elements 1234 5678 = 6912 ∧
    multiply_two_elements (sum_two_elements 1234 5678) 5 = 34560 ∧
    compute_log (multiply_two_elements (sum_two_elements 1234 5678) 5) =
      Sum.inl (Real.log (34560 : ℝ)) := by
  have hpos : ∀ x : ℤ, 0 < x → compute_log x = Sum.inl (Real.log (x : ℝ)) := by
    intro x hx
    rw [compute_log, if_neg (not_le.mpr hx)]
  have h34560 : multiply_two_elements (sum_two_elements 1234 5678) 5 = 34560 := by
    norm_num [sum_two_elements, multiply_two_elements]
  refine ⟨fun a b => rfl, fun a b => rfl, hpos, by norm_num [sum_two_elements],
    h34560, ?_⟩
  rw [h34560, hpos 34560 (by norm_num)]
  norm_num

/-- C4 witness: the positive-branch equation evaluated at 34560. -/
theorem tools_match_reference_witness :
    (0 : ℤ) < 34560 ∧ compute_log 34560 = Sum.inl (Real.log ((34560 : ℤ) : ℝ)) :=
  ⟨by norm_num, tools_match_reference.2.2.1 34560 (by norm_num)⟩

/-- C5: for every text in which the tag pair does not appear (no decomposition
with an opening tag followed later by a closing tag, which includes an opening
tag with no matching closing tag), extraction returns an empty match
sequence. -/
theorem extract_no_tag_pair_empty (text tag : String)
    (h : ∀ a b c, text.data ≠ a ++ openTagOf tag ++ b ++ closeTagOf tag ++ c) :
    (extract_tag_content text tag).content = [] := by
  simp only [extract_tag_content]
  rw [extractMatches_eq_nil_of_no_pair tag text.data h]
  rfl

/-- C5 witness: a text holding an opening `<tool_call>` with no matching
closing tag yields an empty match sequence. -/
theorem extract_no_tag_pair_empty_witness :
    (extract_tag_content "an opening <tool_call> but no closing tag"
      "tool_call").content = [] :=
  extract_no_tag_pair_empty "an opening <tool_call> but no closing tag" "tool_call"
    (fun a b c heq =>
      not_decomp_of_splitOnFirst_none (closeTagOf_ne_nil "tool_call")
        "an opening <tool_call> but no closing tag".data (by decide)
        (a ++ openTagOf "tool_call" ++ b) c heq)

/-- C6: extraction returns the inner contents of the non-overlapping
occurrences of the tag pair in order of appearance: a well-formed
`<tag>X</tag>` segment (no earlier occurrence of the closing tag) contributes
exactly `X`, followed by the matches of the remaining text. -/
theorem extract_wellformed_returns_inner (tag : String) (X rest : List Char)
    (hwf : splitOnFirst (closeTagOf tag) (X ++ (closeTagOf tag).dropLast) = none) :
    (extract_tag_content
        (String.mk (openTagOf tag ++ X ++ closeTagOf tag ++ rest)) tag).content =
      String.mk X :: (extract_tag_content (String.mk rest) tag).content := by
  simp only [extract_tag_content]
  rw [extractMatches_append_tag tag X rest hwf]
  simp

/-- C6 witness: `<response>a<b>\nc</b>d</response>` — inner content with a
nested unrelated tag and an embedded newline — extracts to exactly that inner
content. -/
theorem extract_wellformed_returns_inner_witness :
    (extract_tag_content
        (String.mk (openTagOf "response" ++ "a<b>\nc</b>d".data ++
          closeTagOf "response" ++ [])) "response").content =
      String.mk "a<b>\nc</b>d".data ::
        (extract_tag_content (String.mk []) "response").content :=
  extract_wellformed_returns_inner "response" "a<b>\nc</b>d".data [] (by decide)

/-- C7: every run terminates — the zero budget is immediately fatal
(`budgetExceeded` surfaced to the caller), a client whose replies never
contain a `response` or `tool_call` tag always ends in `budgetExceeded` or a
stalled abort, and the default maximum iteration count is 10. -/
theorem react_loop_always_terminates :
    (∀ (cfg : LoopConfig) (client : List Message → String) (hist : List Message),
      runLoop cfg client 0 hist = RunResult.budgetExceeded) ∧
    (∀ (cfg : LoopConfig) (client : List Message → String),
      (∀ msgs, (extract_tag_content (client msgs) "response").content = [] ∧
        (extract_tag_content (client msgs) "tool_call").content = []) →
      ∀ fuel hist, runLoop cfg client fuel hist = RunResult.budgetExceeded ∨
        ∃ raw, runLoop cfg client fuel hist = RunResult.stalled raw) ∧
    defaultMaxRounds = 10 := by
  refine ⟨fun cfg client hist => rfl, ?_, rfl⟩
  intro cfg client h fuel hist
  cases fuel with
  | zero => exact Or.inl rfl
  | succ fuel =>
    refine Or.inr ⟨client hist, ?_⟩
    have hstep : reactStep cfg hist (client hist) = StepResult.stall (client hist) := by
      simp only [reactStep, (h hist).1, (h hist).2]
    simp only [runLoop, hstep]

/-- C7 witness: a client that never emits tags, run with the default budget,
ends in `budgetExceeded` or a stalled abort. -/
theorem react_loop_always_terminates_witness :
    runLoop demoConfig demoStubbornClient 10 [] = RunResult.budgetExceeded ∨
      ∃ raw, runLoop demoConfig demoStubbornClient 10 [] = RunResult.stalled raw := by
  refine react_loop_always_terminates.2.1 demoConfig demoStubbornClient ?_ 10 []
  intro msgs
  refine ⟨?_, ?_⟩
  · show (extract_tag_content "I refuse to answer with tags" "response").content = []
    decide
  · show (extract_tag_content "I refuse to answer with tags" "tool_call").content = []
    decide

/-- C8: the conversation is append-only — whenever an iteration continues, the
new history is the old history with exactly the assistant reply and one
observation appended, and every previously appended message is unchanged. -/
theorem chat_history_append_only (cfg : LoopConfig) (hist : List Message)
    (reply : String) (h2 : List Message)
    (h : reactStep cfg hist reply = StepResult.next h2) :
    ∃ obs, h2 = hist ++ [assistantMsg reply, observationMsg obs] ∧
      ∀ i, i < hist.length → h2[i]? = hist[i]? := by
  cases hresp : (extract_tag_content reply "response").content with
  | cons ans rest =>
    have hst : reactStep cfg hist reply = StepResult.finished ans := by
      simp only [reactStep, hresp]
    rw [hst] at h
    cases h
  | nil =>
    cases htc : (extract_tag_content reply "tool_call").content with
    | nil =>
      have hst : reactStep cfg hist reply = StepResult.stall reply := by
        simp only [reactStep, hresp, htc]
      rw [hst] at h
      cases h
    | cons tc rest =>
      cases hp : cfg.parse tc with
      | none =>
        have hst : reactStep cfg hist reply = StepResult.stall reply := by
          simp only [reactStep, hresp, htc, hp]
        rw [hst] at h
        cases h
      | some call =>
        have hst : reactStep cfg hist reply =
            StepResult.next ((hist ++ [assistantMsg reply]) ++
              [observationMsg (dispatchToolCall cfg.tools call)]) := by
          simp only [reactStep, hresp, htc, hp]
        rw [hst] at h
        injection h with h
        refine ⟨dispatchToolCall cfg.tools call, ?_, ?_⟩
        · rw [← h]; simp
        · intro i hi
          rw [← h]
          rw [show (hist ++ [assistantMsg reply]) ++
            [observationMsg (dispatchToolCall cfg.tools call)] =
            hist ++ ([assistantMsg reply] ++
              [observationMsg (dispatchToolCall cfg.tools call)]) from by simp]
          exact List.getElem?_append_left hi

/-- C8 witness: a successful concrete iteration appends exactly the assistant
reply and one observation to the empty history. -/
theorem chat_history_append_only_witness :
    ∃ obs, ([] ++ [assistantMsg demoReplyEcho]) ++ [observationMsg "ok"] =
        [] ++ [assistantMsg demoReplyEcho, observationMsg obs] ∧
      ∀ i, i < ([] : List Message).length →
        (([] ++ [assistantMsg demoReplyEcho]) ++ [observationMsg "ok"])[i]? =
          ([] : List Message)[i]? :=
  chat_history_append_only demoConfigEcho [] demoReplyEcho
    (([] ++ [assistantMsg demoReplyEcho]) ++ [observationMsg "ok"]) (by decide)

/-- C9: the `id` field of a parsed tool call has no effect — two tool calls
identical except for `id` resolve to the same tool, dispatch to the same
result, and yield the same observation message. -/
theorem tool_call_id_not_used (tools : List Tool) (c1 c2 : ToolCallData)
    (hname : c1.name = c2.name) (hargs : c1.arguments = c2.arguments) :
    resolveTool tools c1.name = resolveTool tools c2.name ∧
    dispatchToolCall tools c1 = dispatchToolCall tools c2 ∧
    observationMsg (dispatchToolCall tools c1) =
      observationMsg (dispatchToolCall tools c2) := by
  obtain ⟨n1, a1, i1⟩ := c1
  obtain ⟨n2, a2, i2⟩ := c2
  simp only at hname hargs
  subst hname
  subst hargs
  exact ⟨rfl, rfl, rfl⟩

/-- C9 witness: two calls to `echo` with ids 0 and 99 behave identically. -/
theorem tool_call_id_not_used_witness :
    resolveTool [echoTool] (ToolCallData.mk "echo" [("a", 1)] 0).name =
      resolveTool [echoTool] (ToolCallData.mk "echo" [("a", 1)] 99).name ∧
    dispatchToolCall [echoTool] (ToolCallData.mk "echo" [("a", 1)] 0) =
      dispatchToolCall [echoTool] (ToolCallData.mk "echo" [("a", 1)] 99) ∧
    observationMsg (dispatchToolCall [echoTool] (ToolCallData.mk "echo" [("a", 1)] 0)) =
      observationMsg (dispatchToolCall [echoTool] (ToolCallData.mk "echo" [("a", 1)] 99)) :=
  tool_call_id_not_used [echoTool] (ToolCallData.mk "echo" [("a", 1)] 0)
    (ToolCallData.mk "echo" [("a", 1)] 99) rfl rfl

/-- C10: after a successful invocation the appended observation has role
`user` (not a distinct observation role) and content exactly
`<observation>{result}</observation>`; the notebook walkthrough observations
serialize the integer results 6912 and 34560 that way. -/
theorem observation_role_and_format (cfg : LoopConfig) (hist : List Message)
    (reply : String) (tc : String) (rest : List String) (call : ToolCallData)
    (t : Tool)
    (hresp : (extract_tag_content reply "response").content = [])
    (htc : (extract_tag_content reply "tool_call").content = tc :: rest)
    (hparse : cfg.parse tc = some call)
    (hfind : cfg.tools.find? (fun tl => tl.name == call.name) = some t) :
    reactStep cfg hist reply =
      StepResult.next ((hist ++ [assistantMsg reply]) ++
        [⟨Role.user, "<observation>" ++ t.run call.arguments ++ "</observation>"⟩]) ∧
    walkthroughObservation1 = ⟨Role.user, "<observation>6912</observation>"⟩ ∧
    walkthroughObservation2 = ⟨Role.user, "<observation>34560</observation>"⟩ := by
  refine ⟨?_, by decide, by decide⟩
  have hdisp : dispatchToolCall cfg.tools call = t.run call.arguments := by
    simp only [dispatchToolCall, resolveTool, hfind]
  simp only [reactStep, hresp, htc, hparse, hdisp, observationMsg]

/-- C10 witness: the concrete `echo` invocation appends a role-`user` message
wrapping the serialized result in observation tags. -/
theorem observation_role_and_format_witness :
    reactStep demoConfigEcho [] demoReplyEcho =
      StepResult.next (([] ++ [assistantMsg demoReplyEcho]) ++
        [⟨Role.user, "<observation>" ++ "ok" ++ "</observation>"⟩]) ∧
    walkthroughObservation1 = ⟨Role.user, "<observation>6912</observation>"⟩ ∧
    walkthroughObservation2 = ⟨Role.user, "<observation>34560</observation>"⟩ :=
  observation_role_and_format demoConfigEcho [] demoReplyEcho "call1" []
    (ToolCallData.mk "echo" [("a", 1)] 0) echoTool
    (by decide) (by decide) (by decide) rfl

end AgenticPatterns
